import Mathlib

set_option autoImplicit false

/-!
A shallow embedding of the homeserver-portal backend (`backend/main.go`):
the `App` data model, the annotation-to-application mappers used by
`getDemoApps` and `getK8sApps`, the URL derivation `getIngressURL`, the
group-visibility filter `filterAppsByGroups`, and the fetch/handler
error paths of `getDemoApps` and `handleApps`. File reads and YAML
unmarshalling are abstracted into an explicit environment value; Go
string primitives (`strings.TrimSpace`, `strings.EqualFold` on ASCII,
`strings.Split` with a one-rune separator) are embedded directly.
-/

/-- The rune set trimmed by Go `strings.TrimSpace`
(`unicode.IsSpace`: the Unicode White_Space property). -/
def goIsSpace (c : Char) : Bool :=
  let n := c.toNat
  (0x09 ≤ n && n ≤ 0x0D) || n = 0x20 || n = 0x85 || n = 0xA0 || n = 0x1680 ||
  (0x2000 ≤ n && n ≤ 0x200A) || n = 0x2028 || n = 0x2029 || n = 0x202F ||
  n = 0x205F || n = 0x3000

/-- Go `strings.TrimSpace`: drop leading and trailing white-space runes. -/
def goTrimSpace (s : String) : String :=
  String.mk (((s.data.dropWhile goIsSpace).reverse.dropWhile goIsSpace).reverse)

/-- ASCII simple case folding of one rune, as Go `strings.EqualFold`
performs on ASCII letters (non-ASCII folding is not modelled: every
string the program compares here is ASCII). -/
def foldChar (c : Char) : Char :=
  if 'A' ≤ c && c ≤ 'Z' then Char.ofNat (c.toNat + 32) else c

/-- Go `strings.EqualFold` restricted to ASCII folding: equality of the
rune sequences after case folding. -/
def goEqualFold (a b : String) : Bool :=
  a.data.map foldChar == b.data.map foldChar

/-- Go `strings.Split` with a one-rune separator, on rune lists:
splitting the empty input yields one empty field, and every separator
occurrence starts a new field. -/
def goSplitList (sep : Char) : List Char → List (List Char)
  | [] => [[]]
  | c :: cs =>
      let rest := goSplitList sep cs
      if c = sep then [] :: rest
      else
        match rest with
        | [] => [[c]]
        | r :: rs => (c :: r) :: rs

/-- Go `strings.Split s sep` for a one-rune separator `sep`. -/
def goSplit (s : String) (sep : Char) : List String :=
  (goSplitList sep s.data).map String.mk

/-- The `App` record of `main.go` (JSON fields `title`, `icon`, `url`,
`groups`, `description`). -/
structure App where
  title : String
  icon : String
  url : String
  groups : List String
  description : String
deriving DecidableEq, Repr

/-- One entry of the `ingresses` list in the demo config file: an
`annotations` string-to-string mapping, embedded as an association
list. -/
structure IngressConfig where
  annotations : List (String × String)
deriving DecidableEq, Repr

/-- The demo `Config` document: a top-level `groups` string and the
`ingresses` list. -/
structure Config where
  groups : String
  ingresses : List IngressConfig
deriving DecidableEq, Repr

/-- A rule of an ingress spec; only its `host` is read. -/
structure IngressRule where
  host : String
deriving DecidableEq, Repr

/-- A TLS entry of an ingress spec; `getIngressURL` only tests the TLS
list for non-emptiness, never reads these fields. -/
structure IngressTLS where
  hosts : List String
  secretName : String
deriving DecidableEq, Repr

/-- The part of a Kubernetes ingress spec that `main.go` reads. -/
structure IngressSpec where
  rules : List IngressRule
  tls : List IngressTLS
deriving DecidableEq, Repr

/-- A Kubernetes ingress as `getK8sApps` consumes it: its annotations
bag and its spec. -/
structure Ingress where
  annotations : List (String × String)
  spec : IngressSpec
deriving DecidableEq, Repr

/-- Go map lookup `anns[key]` on an annotations bag: the mapped value,
or the zero value `""` when the key is absent. -/
def annGet (anns : List (String × String)) (key : String) : String :=
  match anns.lookup key with
  | some v => v
  | none => ""

/-- Annotation key `dashboard.home/enabled`. -/
def enabledKey : String := "dashboard.home/enabled"

/-- Annotation key `dashboard.home/title`. -/
def titleKey : String := "dashboard.home/title"

/-- Annotation key `dashboard.home/icon`. -/
def iconKey : String := "dashboard.home/icon"

/-- Annotation key `dashboard.home/description`. -/
def descKey : String := "dashboard.home/description"

/-- Annotation key `dashboard.home/groups`. -/
def groupsKey : String := "dashboard.home/groups"

/-- The loop body of `getDemoApps` for one ingress config entry: skip
(`continue`) unless the enabled annotation is exactly `"true"`,
otherwise build the `App` with the fixed demo URL and the groups
annotation split on commas when non-empty. -/
def mapDemoApp (ing : IngressConfig) : Option App :=
  if annGet ing.annotations enabledKey ≠ "true" then none
  else
    some
      { title := annGet ing.annotations titleKey
        icon := annGet ing.annotations iconKey
        description := annGet ing.annotations descKey
        url := "https://example.com"
        groups :=
          if annGet ing.annotations groupsKey ≠ "" then
            goSplit (annGet ing.annotations groupsKey) ','
          else [] }

/-- `getIngressURL`: the host of the first rule prefixed with
`https://` when the spec has any TLS entry and `http://` otherwise;
`""` when there are no rules. -/
def getIngressURL (ing : Ingress) : String :=
  match ing.spec.rules with
  | r :: _ =>
      if 0 < ing.spec.tls.length then "https://" ++ r.host
      else "http://" ++ r.host
  | [] => ""

/-- The loop body of `getK8sApps` for one listed ingress: identical to
the demo mapper except that the URL is derived by `getIngressURL`. -/
def mapK8sApp (ing : Ingress) : Option App :=
  if annGet ing.annotations enabledKey ≠ "true" then none
  else
    some
      { title := annGet ing.annotations titleKey
        icon := annGet ing.annotations iconKey
        description := annGet ing.annotations descKey
        url := getIngressURL ing
        groups :=
          if annGet ing.annotations groupsKey ≠ "" then
            goSplit (annGet ing.annotations groupsKey) ','
          else [] }

/-- The app list `getDemoApps` builds from a parsed config: the demo
mapper over the `ingresses` list, dropping skipped entries. -/
def demoAppsOfConfig (config : Config) : List App :=
  config.ingresses.filterMap mapDemoApp

/-- The app list `getK8sApps` builds from a listed set of ingresses. -/
def k8sAppsOfIngresses (ings : List Ingress) : List App :=
  ings.filterMap mapK8sApp

/-- The match test of `filterAppsByGroups` for one app: some app group
equals some user group after `TrimSpace` on both sides, compared with
`EqualFold` (the `goto next` makes one match enough). -/
def appGroupMatch (userGroups : List String) (app : App) : Bool :=
  app.groups.any fun appGroup =>
    userGroups.any fun userGroup =>
      goEqualFold (goTrimSpace appGroup) (goTrimSpace userGroup)

/-- `filterAppsByGroups`: with no user groups return the input
unchanged; otherwise keep each app whose groups list is empty or that
matches some user group. -/
def filterAppsByGroups (apps : List App) (userGroups : List String) : List App :=
  if userGroups.length = 0 then apps
  else apps.filter fun app => app.groups.isEmpty || appGroupMatch userGroups app

/-- The error kinds `getDemoApps` can return: a read failure of both
config paths, or a `yaml.Unmarshal` failure. -/
inductive FetchError where
  | readError
  | parseError
deriving DecidableEq, Repr

/-- The ambient effects of `getDemoApps`, made explicit: the outcome of
`os.ReadFile` on the primary path `/etc/dashboard/config.yaml` and on
the fallback path `config.yaml` (`none` is a read error), and the
outcome of `yaml.Unmarshal` on any file contents (`none` is a
malformed document). -/
structure DemoEnv where
  primaryRead : Option String
  fallbackRead : Option String
  parseYaml : String → Option Config

/-- The read phase of `getDemoApps`: read the primary path, fall back
to the secondary path on error, and fail with a read error only when
both fail. -/
def readDemoConfigData (env : DemoEnv) : Except FetchError String :=
  match env.primaryRead with
  | some data => .ok data
  | none =>
      match env.fallbackRead with
      | some data => .ok data
      | none => .error .readError

/-- The parse-and-map phase of `getDemoApps` on successfully read file
contents: unmarshal the whole document, failing the fetch outright on
a malformed document, then map the ingress entries. -/
def parseDemoData (env : DemoEnv) (data : String) : Except FetchError (List App) :=
  match env.parseYaml data with
  | none => .error .parseError
  | some config => .ok (demoAppsOfConfig config)

/-- `getDemoApps` over an explicit environment: read (with fallback),
then parse and map; any failure aborts the whole fetch with no apps. -/
def getDemoApps (env : DemoEnv) : Except FetchError (List App) :=
  match readDemoConfigData env with
  | .error e => .error e
  | .ok data => parseDemoData env data

/-- The HTTP response `handleApps` produces: an error status with a
body, or the serialized filtered app list. -/
inductive Response where
  | errorResp (status : Nat) (body : String)
  | appsResp (apps : List App)
deriving DecidableEq, Repr

/-- The JSON body `handleApps` writes on a fetch failure. -/
def fetchFailureBody : String := "\x7b\"error\":\"failed to fetch apps\"\x7d"

/-- The fetch-then-filter core of `handleApps`: on a fetch error,
respond 500 with a fixed error body and serialize no apps; on success,
serialize the filtered list. -/
def handleApps (fetch : Except FetchError (List App)) (userGroups : List String) :
    Response :=
  match fetch with
  | .error _ => .errorResp 500 fetchFailureBody
  | .ok apps => .appsResp (filterAppsByGroups apps userGroups)

/-- Concrete sample: an application restricted to group `"Admins "`
(trailing space kept from parsing). -/
def adminApp : App :=
  { title := "Grafana", icon := "", url := "https://example.com",
    groups := ["Admins "], description := "" }

/-- Concrete sample: an application with no group restriction. -/
def publicApp : App :=
  { title := "Home", icon := "", url := "https://example.com",
    groups := [], description := "" }

/-- Concrete sample: a bag carrying only the enabled flag. -/
def bagEnabledBare : IngressConfig := ⟨[(enabledKey, "true")]⟩

/-- The application the bare enabled bag maps to: every optional field
defaults to the empty string. -/
def bareApp : App :=
  { title := "", icon := "", url := "https://example.com",
    groups := [], description := "" }

/-- Concrete sample: a cluster ingress carrying only the enabled flag,
with no rules and no TLS. -/
def k8sBare : Ingress := ⟨[(enabledKey, "true")], ⟨[], []⟩⟩

/-- Concrete sample: the round-trip bag of the spec with title
`"Grafana"` and groups annotation `"ops, admins"`. -/
def grafanaBag : IngressConfig :=
  ⟨[(enabledKey, "true"), (titleKey, "Grafana"), (groupsKey, "ops, admins")]⟩

/-- The application the round-trip bag maps to: the groups annotation
splits on the comma with the leading space of `" admins"` kept. -/
def grafanaApp : App :=
  { title := "Grafana", icon := "", url := "https://example.com",
    groups := ["ops", " admins"], description := "" }

/-- Concrete sample: an enabled bag whose groups annotation is a single
space. -/
def blankGroupsBag : IngressConfig := ⟨[(enabledKey, "true"), (groupsKey, " ")]⟩

/-- The application the blank-groups bag maps to: one group consisting
of a single space. -/
def blankGroupsApp : App :=
  { title := "", icon := "", url := "https://example.com",
    groups := [" "], description := "" }

/-- Concrete sample: an ingress with one rule for `app.example.com` and
a TLS entry. -/
def tlsIngress : Ingress :=
  ⟨[], ⟨[⟨"app.example.com"⟩], [⟨["app.example.com"], "tls-secret"⟩]⟩⟩

/-- Concrete sample: the same ingress without TLS. -/
def plainIngress : Ingress := ⟨[], ⟨[⟨"app.example.com"⟩], []⟩⟩

/-- Concrete sample: an ingress with no rules. -/
def ruleLessIngress : Ingress := ⟨[], ⟨[], []⟩⟩

/-- Concrete sample: an environment where both config paths are
unreadable. -/
def deadEnv : DemoEnv := ⟨none, none, fun _ => none⟩

/-- Concrete sample: an environment where the primary path fails, the
fallback path reads `"data"`, and parsing yields an empty config. -/
def fallbackEnv : DemoEnv := ⟨none, some "data", fun _ => some ⟨"", []⟩⟩

example : goSplit "ops, admins" ',' = ["ops", " admins"] := by decide

example : goEqualFold (goTrimSpace "Admins ") (goTrimSpace "admins") = true := by decide

theorem goSplitList_ne_nil (sep : Char) (l : List Char) : goSplitList sep l ≠ [] := by
  induction l with
  | nil => simp [goSplitList]
  | cons c cs ih =>
    simp only [goSplitList]
    by_cases h : c = sep
    · simp [h]
    · simp only [if_neg h]
      cases hr : goSplitList sep cs <;> simp

theorem goSplit_ne_nil (s : String) (sep : Char) : goSplit s sep ≠ [] := by
  unfold goSplit
  intro h
  exact goSplitList_ne_nil sep s.data (List.map_eq_nil_iff.mp h)

theorem annGet_of_lookup_none (anns : List (String × String)) (key : String)
    (h : anns.lookup key = none) : annGet anns key = "" := by
  unfold annGet
  rw [h]

theorem mapDemoApp_isSome (ing : IngressConfig) :
    (mapDemoApp ing).isSome = (annGet ing.annotations enabledKey == "true") := by
  unfold mapDemoApp
  by_cases h : annGet ing.annotations enabledKey = "true" <;> simp [h]

theorem mapDemoApp_some_fields (ing : IngressConfig) (app : App)
    (h : mapDemoApp ing = some app) :
    app.title = annGet ing.annotations titleKey ∧
    app.icon = annGet ing.annotations iconKey ∧
    app.description = annGet ing.annotations descKey ∧
    app.url = "https://example.com" ∧
    app.groups = (if annGet ing.annotations groupsKey ≠ "" then
        goSplit (annGet ing.annotations groupsKey) ',' else []) := by
  unfold mapDemoApp at h
  split at h
  · exact absurd h (by simp)
  · injection h with h
    subst h
    exact ⟨rfl, rfl, rfl, rfl, rfl⟩

theorem mapK8sApp_isSome (king : Ingress) :
    (mapK8sApp king).isSome = (annGet king.annotations enabledKey == "true") := by
  unfold mapK8sApp
  by_cases h : annGet king.annotations enabledKey = "true" <;> simp [h]

theorem mapK8sApp_some_fields (king : Ingress) (app : App)
    (h : mapK8sApp king = some app) :
    app.title = annGet king.annotations titleKey ∧
    app.icon = annGet king.annotations iconKey ∧
    app.description = annGet king.annotations descKey ∧
    app.url = getIngressURL king ∧
    app.groups = (if annGet king.annotations groupsKey ≠ "" then
        goSplit (annGet king.annotations groupsKey) ',' else []) := by
  unfold mapK8sApp at h
  split at h
  · exact absurd h (by simp)
  · injection h with h
    subst h
    exact ⟨rfl, rfl, rfl, rfl, rfl⟩

theorem mem_filterAppsByGroups (apps : List App) (userGroups : List String) (app : App)
    (hu : userGroups ≠ []) :
    app ∈ filterAppsByGroups apps userGroups ↔
      app ∈ apps ∧ (app.groups.isEmpty || appGroupMatch userGroups app) = true := by
  unfold filterAppsByGroups
  rw [if_neg (by simpa using hu)]
  exact List.mem_filter

theorem appGroupMatch_iff (userGroups : List String) (app : App) :
    appGroupMatch userGroups app = true ↔
      ∃ g ∈ app.groups, ∃ u ∈ userGroups,
        goEqualFold (goTrimSpace g) (goTrimSpace u) = true := by
  unfold appGroupMatch
  simp [List.any_eq_true]

/-- C1: for an application with a non-empty groups list and a non-empty
caller group set, the filter passes the application exactly when some
application group and some caller group are equal after trimming
surrounding whitespace on both sides and comparing case-insensitively. -/
theorem filter_match_iff (apps : List App) (userGroups : List String) (app : App)
    (hg : app.groups ≠ []) (hu : userGroups ≠ []) :
    app ∈ filterAppsByGroups apps userGroups ↔
      app ∈ apps ∧ ∃ g ∈ app.groups, ∃ u ∈ userGroups,
        goEqualFold (goTrimSpace g) (goTrimSpace u) = true := by
  rw [mem_filterAppsByGroups apps userGroups app hu]
  have hge : app.groups.isEmpty = false := by
    cases h : app.groups with
    | nil => exact absurd h hg
    | cons => rfl
  rw [hge]
  simp only [Bool.false_or]
  exact and_congr_right fun _ => appGroupMatch_iff userGroups app

/-- Witness for C1: the application group `"Admins "` matches the
caller group `"admins"`, so the application passes the filter. -/
theorem filter_match_iff_witness :
    adminApp ∈ filterAppsByGroups [adminApp] ["admins"] :=
  (filter_match_iff [adminApp] ["admins"] adminApp (by decide) (by decide)).mpr
    ⟨by simp, "Admins ", by decide, "admins", by decide, by decide⟩

/-- C3: with an empty caller group set the filter returns the input
list unchanged. -/
theorem filter_empty_caller_identity (apps : List App) :
    filterAppsByGroups apps [] = apps := rfl

/-- C4: the filtered output is a sublist of the input (it preserves the
relative order of the input), and a single application contributes at
most one output entry however many of its groups match. -/
theorem filter_sublist_and_once (apps : List App) (userGroups : List String)
    (app : App) :
    List.Sublist (filterAppsByGroups apps userGroups) apps ∧
    (filterAppsByGroups [app] userGroups).length ≤ 1 := by
  constructor
  · unfold filterAppsByGroups
    split
    · exact List.Sublist.refl apps
    · exact List.filter_sublist apps
  · unfold filterAppsByGroups
    split
    · simp
    · simpa using List.length_filter_le _ [app]

/-- C5: an application whose groups list is empty passes the filter for
every caller group set. -/
theorem public_app_passes (apps : List App) (userGroups : List String) (app : App)
    (hg : app.groups = []) (ha : app ∈ apps) :
    app ∈ filterAppsByGroups apps userGroups := by
  unfold filterAppsByGroups
  split
  · exact ha
  · exact List.mem_filter.mpr ⟨ha, by simp [hg]⟩

/-- Witness for C5: a concrete group-less application passes for a
caller presenting the group `"ops"`. -/
theorem public_app_passes_witness :
    publicApp ∈ filterAppsByGroups [publicApp] ["ops"] :=
  public_app_passes [publicApp] ["ops"] publicApp rfl (by simp)

/-- C2: both mappers emit an application exactly when the bag maps the
enabled key to the literal `"true"`; a bag without the key yields no
application, and in an emitted application the title, icon and
description default to the empty string when their keys are absent. -/
theorem mapper_enabled_gate (ing : IngressConfig) (king : Ingress) :
    ((mapDemoApp ing).isSome = (annGet ing.annotations enabledKey == "true") ∧
      (ing.annotations.lookup enabledKey = none → mapDemoApp ing = none) ∧
      ∀ app, mapDemoApp ing = some app →
        (ing.annotations.lookup titleKey = none → app.title = "") ∧
        (ing.annotations.lookup iconKey = none → app.icon = "") ∧
        (ing.annotations.lookup descKey = none → app.description = "")) ∧
    ((mapK8sApp king).isSome = (annGet king.annotations enabledKey == "true") ∧
      (king.annotations.lookup enabledKey = none → mapK8sApp king = none) ∧
      ∀ app, mapK8sApp king = some app →
        (king.annotations.lookup titleKey = none → app.title = "") ∧
        (king.annotations.lookup iconKey = none → app.icon = "") ∧
        (king.annotations.lookup descKey = none → app.description = "")) := by
  refine ⟨⟨mapDemoApp_isSome ing, ?_, ?_⟩, mapK8sApp_isSome king, ?_, ?_⟩
  · intro h
    unfold mapDemoApp
    rw [annGet_of_lookup_none _ _ h, if_pos (by decide)]
  · intro app hm
    obtain ⟨ht, hi, hd, -, -⟩ := mapDemoApp_some_fields ing app hm
    exact ⟨fun h => by rw [ht, annGet_of_lookup_none _ _ h],
           fun h => by rw [hi, annGet_of_lookup_none _ _ h],
           fun h => by rw [hd, annGet_of_lookup_none _ _ h]⟩
  · intro h
    unfold mapK8sApp
    rw [annGet_of_lookup_none _ _ h, if_pos (by decide)]
  · intro app hm
    obtain ⟨ht, hi, hd, -, -⟩ := mapK8sApp_some_fields king app hm
    exact ⟨fun h => by rw [ht, annGet_of_lookup_none _ _ h],
           fun h => by rw [hi, annGet_of_lookup_none _ _ h],
           fun h => by rw [hd, annGet_of_lookup_none _ _ h]⟩

/-- Witness for C2: the empty bag yields no application, the bag with
only the enabled flag yields an application, and that application has
an empty title. -/
theorem mapper_enabled_gate_witness :
    mapDemoApp ⟨[]⟩ = none ∧
    mapDemoApp bagEnabledBare = some bareApp ∧
    bareApp.title = "" := by
  have h := mapper_enabled_gate bagEnabledBare k8sBare
  have h0 := mapper_enabled_gate ⟨[]⟩ k8sBare
  exact ⟨h0.1.2.1 rfl, by decide, (h.1.2.2 bareApp (by decide)).1 (by decide)⟩

/-- C6: in both mappers, an emitted application carries `[]` as groups
when the groups annotation is absent or empty, and otherwise exactly
the comma-split of the annotation value with no per-element trimming. -/
theorem mapper_groups_split (ing : IngressConfig) (king : Ingress) :
    (∀ app, mapDemoApp ing = some app →
      (annGet ing.annotations groupsKey = "" → app.groups = []) ∧
      (annGet ing.annotations groupsKey ≠ "" →
        app.groups = goSplit (annGet ing.annotations groupsKey) ',')) ∧
    (∀ app, mapK8sApp king = some app →
      (annGet king.annotations groupsKey = "" → app.groups = []) ∧
      (annGet king.annotations groupsKey ≠ "" →
        app.groups = goSplit (annGet king.annotations groupsKey) ',')) := by
  constructor
  · intro app hm
    have hg := (mapDemoApp_some_fields ing app hm).2.2.2.2
    exact ⟨fun h => by rw [hg, if_neg (fun hne => hne h)],
           fun h => by rw [hg, if_pos h]⟩
  · intro app hm
    have hg := (mapK8sApp_some_fields king app hm).2.2.2.2
    exact ⟨fun h => by rw [hg, if_neg (fun hne => hne h)],
           fun h => by rw [hg, if_pos h]⟩

/-- Witness for C6: the round-trip bag maps to the Grafana application
whose groups are `["ops", " admins"]` with the leading space kept, the
application passes for caller groups `["ops"]`, and `" admins"` still
matches the caller group `"admins"` after trim and fold. -/
theorem mapper_groups_split_witness :
    mapDemoApp grafanaBag = some grafanaApp ∧
    grafanaApp.groups = goSplit "ops, admins" ',' ∧
    goSplit "ops, admins" ',' = ["ops", " admins"] ∧
    grafanaApp ∈ filterAppsByGroups [grafanaApp] ["ops"] ∧
    goEqualFold (goTrimSpace " admins") (goTrimSpace "admins") = true := by
  refine ⟨by decide, ?_, by decide, by decide, by decide⟩
  have hg := ((mapper_groups_split grafanaBag k8sBare).1 grafanaApp
    (by decide)).2 (by decide)
  rw [hg]
  decide

/-- C7: the derived URL of a cluster record is empty when it has no
rules, and otherwise is the first rule's host prefixed with `https://`
when a TLS entry is configured and `http://` otherwise. -/
theorem ingress_url_derivation (ing : Ingress) :
    (ing.spec.rules = [] → getIngressURL ing = "") ∧
    (∀ r rest, ing.spec.rules = r :: rest →
      getIngressURL ing =
        (if 0 < ing.spec.tls.length then "https://" else "http://") ++ r.host) := by
  constructor
  · intro h
    simp only [getIngressURL, h]
  · intro r rest h
    simp only [getIngressURL, h]
    by_cases ht : 0 < ing.spec.tls.length
    · rw [if_pos ht, if_pos ht]
    · rw [if_neg ht, if_neg ht]

/-- Witness for C7: host `app.example.com` derives
`https://app.example.com` with TLS, `http://app.example.com` without,
and the empty string without rules. -/
theorem ingress_url_derivation_witness :
    getIngressURL tlsIngress = "https://app.example.com" ∧
    getIngressURL plainIngress = "http://app.example.com" ∧
    getIngressURL ruleLessIngress = "" := by
  refine ⟨?_, ?_, (ingress_url_derivation ruleLessIngress).1 rfl⟩
  · rw [(ingress_url_derivation tlsIngress).2 ⟨"app.example.com"⟩ [] rfl]
    decide
  · rw [(ingress_url_derivation plainIngress).2 ⟨"app.example.com"⟩ [] rfl]
    decide

/-- C8: a fetch whose read or parse fails yields an error carrying no
application records, and the handler then answers with the single
fixed 500 error body instead of serializing applications. -/
theorem fetch_failure_atomic (env : DemoEnv) (userGroups : List String) :
    (∀ data, readDemoConfigData env = .ok data → env.parseYaml data = none →
      getDemoApps env = .error .parseError) ∧
    (env.primaryRead = none → env.fallbackRead = none →
      getDemoApps env = .error .readError) ∧
    (∀ e, getDemoApps env = .error e →
      handleApps (getDemoApps env) userGroups = .errorResp 500 fetchFailureBody) := by
  refine ⟨?_, ?_, ?_⟩
  · intro data hr hp
    have hstep : getDemoApps env = parseDemoData env data := by
      unfold getDemoApps
      rw [hr]
    rw [hstep]
    unfold parseDemoData
    rw [hp]
  · intro hp hf
    unfold getDemoApps readDemoConfigData
    rw [hp, hf]
  · intro e he
    rw [he]
    rfl

/-- Witness for C8: with both config paths unreadable the fetch is a
read error and the handler answers 500 with the fixed error body. -/
theorem fetch_failure_atomic_witness :
    getDemoApps deadEnv = .error .readError ∧
    handleApps (getDemoApps deadEnv) [] = .errorResp 500 fetchFailureBody := by
  have h := fetch_failure_atomic deadEnv []
  exact ⟨h.2.1 rfl rfl, h.2.2 .readError (h.2.1 rfl rfl)⟩

/-- C9: the static adapter returns a read error exactly when both the
primary and the fallback path fail; a successful primary read is used,
a fallback read is used when the primary fails, and any successfully
read contents proceed to the parse phase. -/
theorem static_fallback_read (env : DemoEnv) :
    (getDemoApps env = .error .readError ↔
      env.primaryRead = none ∧ env.fallbackRead = none) ∧
    (∀ d, env.primaryRead = some d → readDemoConfigData env = .ok d) ∧
    (∀ d, env.primaryRead = none → env.fallbackRead = some d →
      readDemoConfigData env = .ok d) ∧
    (∀ d, readDemoConfigData env = .ok d → getDemoApps env = parseDemoData env d) := by
  have hread : ∀ d, readDemoConfigData env = .ok d →
      getDemoApps env = parseDemoData env d := by
    intro d h
    unfold getDemoApps
    rw [h]
  have hnoRead : ∀ d, readDemoConfigData env = .ok d →
      getDemoApps env ≠ .error .readError := by
    intro d h hc
    rw [hread d h] at hc
    unfold parseDemoData at hc
    cases hy : env.parseYaml d with
    | none =>
      rw [hy] at hc
      simp at hc
    | some c =>
      rw [hy] at hc
      simp at hc
  refine ⟨⟨?_, ?_⟩, ?_, ?_, hread⟩
  · intro h
    cases hp : env.primaryRead with
    | some d =>
      exact absurd h (hnoRead d (by unfold readDemoConfigData; rw [hp]))
    | none =>
      cases hf : env.fallbackRead with
      | some d =>
        exact absurd h (hnoRead d (by unfold readDemoConfigData; rw [hp, hf]))
      | none => exact ⟨rfl, rfl⟩
  · rintro ⟨hp, hf⟩
    unfold getDemoApps readDemoConfigData
    rw [hp, hf]
  · intro d h
    unfold readDemoConfigData
    rw [h]
  · intro d hp hf
    unfold readDemoConfigData
    rw [hp, hf]

/-- Witness for C9: with the primary path unreadable and the fallback
readable, the adapter reads the fallback contents, the fetch succeeds,
and no read error is reported. -/
theorem static_fallback_read_witness :
    readDemoConfigData fallbackEnv = .ok "data" ∧
    getDemoApps fallbackEnv = .ok [] ∧
    getDemoApps fallbackEnv ≠ .error .readError := by
  have h := static_fallback_read fallbackEnv
  have hr : readDemoConfigData fallbackEnv = .ok "data" := h.2.2.1 "data" rfl rfl
  refine ⟨hr, ?_, ?_⟩
  · rw [h.2.2.2 "data" hr]
    rfl
  · intro hc
    exact Option.noConfusion (h.1.mp hc).2

/-- C10: an emitted application whose groups annotation was a non-empty
string has a non-empty groups list, so it is never treated as public:
for a non-empty caller group set it passes the filter only when some
group of the application and some caller group agree after trimming
and case folding. -/
theorem nonempty_groups_restrict (ing : IngressConfig) (app : App)
    (apps : List App) (userGroups : List String)
    (hm : mapDemoApp ing = some app)
    (hg : annGet ing.annotations groupsKey ≠ "")
    (hu : userGroups ≠ []) :
    app.groups ≠ [] ∧
    (app ∈ filterAppsByGroups apps userGroups →
      ∃ g ∈ app.groups, ∃ u ∈ userGroups,
        goEqualFold (goTrimSpace g) (goTrimSpace u) = true) := by
  have hsplit := (mapDemoApp_some_fields ing app hm).2.2.2.2
  have hne : app.groups ≠ [] := by
    rw [hsplit, if_pos hg]
    exact goSplit_ne_nil _ _
  refine ⟨hne, fun hmem => ?_⟩
  have hin := (mem_filterAppsByGroups apps userGroups app hu).mp hmem
  have hge : app.groups.isEmpty = false := by
    cases h : app.groups with
    | nil => exact absurd h hne
    | cons => rfl
  rw [hge, Bool.false_or] at hin
  exact (appGroupMatch_iff userGroups app).mp hin.2

/-- Witness for C10: the bag whose groups annotation is a single space
maps to an application with the non-empty groups list `[" "]`, which a
caller with group `"x"` cannot see while a caller presenting the empty
group (which trims to the same normalized string) can. -/
theorem nonempty_groups_restrict_witness :
    mapDemoApp blankGroupsBag = some blankGroupsApp ∧
    blankGroupsApp.groups ≠ [] ∧
    filterAppsByGroups [blankGroupsApp] ["x"] = [] ∧
    filterAppsByGroups [blankGroupsApp] [""] = [blankGroupsApp] := by
  refine ⟨by decide, ?_, by decide, by decide⟩
  exact (nonempty_groups_restrict blankGroupsBag blankGroupsApp [blankGroupsApp]
    ["x"] (by decide) (by decide) (by decide)).1
